import Mathlib

/-!
Verification of the inventory document-store service (`src/server.js`).

The development shallowly embeds the JavaScript source:

* JavaScript/JSON values are modeled by `JVal`; a JavaScript object is an
  ordered association list `JsObj` (`Object.assign`, property reads, and
  property writes keep JavaScript's first-occurrence / insertion-order
  semantics via `objGet` / `objSet` / `objAssign`).
* A property read that misses yields JavaScript `undefined`, modeled by
  `Option JVal` being `none` (a JSON body can never contain `undefined`,
  and `JSON.stringify` drops keys whose value is `undefined`, so `none`
  exactly captures the absent-key behavior of the persisted data).
* `randomUUID()` is modeled by a fresh-name counter (`uuid`), `new Date()`
  by a natural-number clock supplied once per request handler (all `Date`
  calls inside one handler happen within the same instant in the model).
* The route handlers `POST /api/v1/inventory`, `PATCH /api/v1/inventory/:id`
  and `DELETE /api/v1/inventory/:id` become `createTx` / `updateTx` /
  `deleteTx` (the function passed to `withDb`) wrapped by `stepOp`
  (the pre-transaction validation plus the `withDb` persistence cycle).
* `loadDb` / `saveDb` and the corruption quarantine are modeled over an
  explicit filesystem state `Fs`; between two transactions the document
  round-trips through `JSON.stringify` / `JSON.parse`, which justifies
  the value semantics used for the in-memory document.
* The polling mutex of `withDb` (`lock.locked`, `setTimeout` retry) is
  modeled as a labeled transition system `lockStep` over `LockState`:
  one `poll` action is one resumption of the `while` loop (the re-check
  of `lock.locked` and, when free, the acquisition — atomic because no
  `await` separates them in the source), and `finish` is the completion
  of the load/mutate/save cycle plus the `finally` release.
-/

/-- JavaScript/JSON values as they occur in this program. JSON numbers are
modeled as integers: every numeric value the claims exercise is integral. -/
inductive JVal where
  | null
  | bool (b : Bool)
  | num (n : Int)
  | str (s : String)
  | obj (fields : List (String × JVal))
deriving Repr

mutual

def decEqJVal : (a b : JVal) → Decidable (a = b)
  | .null, .null => isTrue rfl
  | .null, .bool _ => isFalse (by simp)
  | .null, .num _ => isFalse (by simp)
  | .null, .str _ => isFalse (by simp)
  | .null, .obj _ => isFalse (by simp)
  | .bool _, .null => isFalse (by simp)
  | .bool a, .bool b =>
    if h : a = b then isTrue (by rw [h]) else isFalse (by simp [h])
  | .bool _, .num _ => isFalse (by simp)
  | .bool _, .str _ => isFalse (by simp)
  | .bool _, .obj _ => isFalse (by simp)
  | .num _, .null => isFalse (by simp)
  | .num _, .bool _ => isFalse (by simp)
  | .num a, .num b =>
    if h : a = b then isTrue (by rw [h]) else isFalse (by simp [h])
  | .num _, .str _ => isFalse (by simp)
  | .num _, .obj _ => isFalse (by simp)
  | .str _, .null => isFalse (by simp)
  | .str _, .bool _ => isFalse (by simp)
  | .str _, .num _ => isFalse (by simp)
  | .str a, .str b =>
    if h : a = b then isTrue (by rw [h]) else isFalse (by simp [h])
  | .str _, .obj _ => isFalse (by simp)
  | .obj _, .null => isFalse (by simp)
  | .obj _, .bool _ => isFalse (by simp)
  | .obj _, .num _ => isFalse (by simp)
  | .obj _, .str _ => isFalse (by simp)
  | .obj xs, .obj ys =>
    match decEqJValPairs xs ys with
    | isTrue h => isTrue (by rw [h])
    | isFalse h => isFalse (by simp [h])

def decEqJValPairs : (xs ys : List (String × JVal)) → Decidable (xs = ys)
  | [], [] => isTrue rfl
  | [], _ :: _ => isFalse (by simp)
  | _ :: _, [] => isFalse (by simp)
  | (k, v) :: xs, (k2, v2) :: ys =>
    if hk : k = k2 then
      match decEqJVal v v2 with
      | isTrue hv =>
        match decEqJValPairs xs ys with
        | isTrue hr => isTrue (by rw [hk, hv, hr])
        | isFalse hr => isFalse (by simp [hr])
      | isFalse hv => isFalse (by simp [hv])
    else isFalse (by simp [hk])

end

instance : DecidableEq JVal := decEqJVal

/-- A JavaScript object: ordered key/value pairs, first occurrence wins on
lookup (a parsed JSON object never has duplicate keys, and every object this
program builds keeps its keys distinct). -/
abbrev JsObj := List (String × JVal)

/-- Property read, `o[k]`. `none` is JavaScript `undefined` (key absent). -/
def objGet (o : JsObj) (k : String) : Option JVal :=
  (o.find? (fun p => p.1 = k)).map Prod.snd

/-- The `k in o` test. -/
def objHas (o : JsObj) (k : String) : Bool :=
  o.any (fun p => p.1 = k)

/-- Property write, `o[k] = v`: an existing key is updated in place, a new
key is appended at the end (JavaScript insertion-order semantics). -/
def objSet : JsObj → String → JVal → JsObj
  | [], k, v => [(k, v)]
  | (k2, v2) :: rest, k, v =>
    if k2 = k then (k2, v) :: rest else (k2, v2) :: objSet rest k v

/-- `Object.assign(target, src)`: every own property of `src` is written
into `target`, in order. -/
def objAssign (target src : JsObj) : JsObj :=
  src.foldl (fun acc p => objSet acc p.1 p.2) target

/-- JavaScript truthiness of a possibly-undefined value, as used by
`!sku`, `!x.deleted_at` and similar tests in the source. The model has no
NaN: no claim reaches a NaN value. -/
def truthy : Option JVal → Bool
  | none => false
  | some .null => false
  | some (.bool b) => b
  | some (.num n) => n ≠ 0
  | some (.str s) => s ≠ ""
  | some (.obj _) => true

/-- JavaScript `Number(v)` coercion as applied to `quantity` / `price`
(`server.js` line 82). Exact on numbers, booleans and `null` — the shapes
the claims exercise. String parsing and object coercion (whose JavaScript
outcomes include NaN) are a library-level boundary of the model, mapped to
`num 0`; no theorem below depends on the value taken in those cases. -/
def jsToNumber : JVal → JVal
  | .num n => .num n
  | .bool b => .num (if b then 1 else 0)
  | .null => .num 0
  | .str _ => .num 0
  | .obj _ => .num 0

/-- `randomUUID()` outcomes: a fresh, never-repeating opaque string per
draw of the counter `n`. The encoding only needs to be injective. -/
def uuid (n : Nat) : JVal :=
  .str (String.mk (List.replicate (n + 1) 'u'))

/-- `new Date().toISOString()` at model time `t`: a nonempty (hence truthy)
timestamp string, injective in `t`. -/
def tsStr (t : Nat) : String :=
  String.mk (List.replicate (t + 1) 'T')

/-- One audit record, as built at `server.js` lines 57, 85 and 95. The
fixed shape of these object literals is captured as a structure; `diff`
is `none` for the `null` diff of CREATE. In a diff cell, `before`/`after`
hold the raw property reads (`before[k]`, `ex[k]`), so `none` is an
`undefined` read — which `JSON.stringify` drops from the persisted file. -/
structure FieldDiff where
  before : Option JVal
  after : Option JVal
deriving DecidableEq, Repr

structure AuditEntry where
  audit_id : JVal
  item_id : Option JVal
  operation : String
  changed_by : String
  changed_at : Nat
  diff : Option (List (String × FieldDiff))
  full_record : JsObj
deriving DecidableEq, Repr

/-- The persisted document (`loadDb` shape, `server.js` line 10). -/
structure Db where
  users : List JsObj
  inventory_items : List JsObj
  inventory_audit : List AuditEntry
  app_meta : JsObj
deriving DecidableEq, Repr

def emptyDb : Db := ⟨[], [], [], []⟩

/-- `findItem(db, id)` (`server.js` line 47): first inventory item whose
`item_id` property is `===`-equal to `id`. A missing `item_id` reads as
`undefined`, which is never `===` a request-path id. -/
def findItem (db : Db) (id : JVal) : Option JsObj :=
  db.inventory_items.find? (fun i => objGet i "item_id" = some id)

/-- Index of the first list element whose `item_id` property equals `id`. -/
def idxOfItem (id : JVal) : List JsObj → Option Nat
  | [] => none
  | x :: rest =>
    if objGet x "item_id" = some id then some 0
    else (idxOfItem id rest).map (· + 1)

/-- Index of the item `findItem` would return, for the in-place mutation
done by the PATCH and DELETE handlers. -/
def findItemIdx (db : Db) (id : JVal) : Option Nat :=
  idxOfItem id db.inventory_items

/-- Outcome of the function run inside `withDb` by each mutating route. -/
inductive TxResult where
  | created (item : JsObj)
  | updated (item : JsObj)
  | deletedOk
  | duplicateSku
  | notFound
deriving DecidableEq, Repr

/-- Mutable transactional state: the loaded document plus the fresh-name
counter backing `randomUUID()`. -/
structure St where
  db : Db
  nextId : Nat
deriving DecidableEq, Repr

/-- The fresh-record literal of `server.js` line 55:
`Object.assign({item_id, created_at, updated_at, deleted_at, created_by,
updated_by}, req.body)`. The body comes second, so its keys override the
generated defaults. -/
def createRecord (body : JsObj) (actor : String) (id : Nat) (now : Nat) : JsObj :=
  objAssign
    [("item_id", uuid id),
     ("created_at", .str (tsStr now)),
     ("updated_at", .str (tsStr now)),
     ("deleted_at", .null),
     ("created_by", .str actor),
     ("updated_by", .str actor)]
    body

/-- The `withDb` callback of `POST /api/v1/inventory` (`server.js`
lines 52-58): duplicate-SKU check over active items, then build the record,
push it, and unshift a CREATE audit entry whose `item_id` is the generated
id and whose `full_record` is the new record. -/
def createTx (body : JsObj) (actor : String) (now : Nat) (s : St) : TxResult × St :=
  if s.db.inventory_items.any
      (fun x => decide (objGet x "sku" = objGet body "sku") && !truthy (objGet x "deleted_at"))
  then (.duplicateSku, s)
  else
    let newRec := createRecord body actor s.nextId now
    let entry : AuditEntry :=
      { audit_id := uuid (s.nextId + 1), item_id := some (uuid s.nextId),
        operation := "CREATE", changed_by := actor, changed_at := now,
        diff := none, full_record := newRec }
    (.created newRec,
     { db := { s.db with
                 inventory_items := s.db.inventory_items ++ [newRec],
                 inventory_audit := entry :: s.db.inventory_audit },
       nextId := s.nextId + 2 })

/-- The allow-list of `PATCH /api/v1/inventory/:id` (`server.js` line 76). -/
def allowedFields : List String :=
  ["product_name", "category", "quantity", "supplier", "price", "location", "metadata"]

/-- The `updates` object built at `server.js` line 77: for each allow-listed
key present in the body (`k in req.body`), its body value, in allow-list
order (object insertion order). -/
def allowedUpdates (body : JsObj) : List (String × JVal) :=
  allowedFields.filterMap (fun k => (objGet body k).map (fun v => (k, v)))

/-- The per-field assignment of `server.js` line 82: `quantity` and `price`
are coerced (`null` stays `null`, otherwise `Number(...)`), other allowed
fields are copied verbatim. -/
def coerceField (k : String) (v : JVal) : JVal :=
  if k = "quantity" ∨ k = "price" then
    (if v = .null then .null else jsToNumber v)
  else v

/-- Lines 82-83 of `server.js`: write every update into the found item,
then bump `updated_at` / `updated_by`. -/
def applyUpdates (ex : JsObj) (updates : List (String × JVal))
    (actor : String) (now : Nat) : JsObj :=
  objSet
    (objSet (updates.foldl (fun e p => objSet e p.1 (coerceField p.1 p.2)) ex)
      "updated_at" (.str (tsStr now)))
    "updated_by" (.str actor)

/-- The `withDb` callback of `PATCH /api/v1/inventory/:id` (`server.js`
lines 80-86): find the item (any state, deleted included), snapshot it
(`{...ex}`), apply the updates, build the per-field diff from the snapshot
and the mutated item, and unshift an UPDATE audit entry carrying a copy of
the mutated item. -/
def updateTx (id : JVal) (updates : List (String × JVal)) (actor : String)
    (now : Nat) (s : St) : TxResult × St :=
  match findItemIdx s.db id with
  | none => (.notFound, s)
  | some i =>
    let ex := (s.db.inventory_items.getD i [])
    let ex2 := applyUpdates ex updates actor now
    let diff : List (String × FieldDiff) :=
      updates.map (fun p => (p.1, { before := objGet ex p.1, after := objGet ex2 p.1 }))
    let entry : AuditEntry :=
      { audit_id := uuid s.nextId, item_id := objGet ex2 "item_id",
        operation := "UPDATE", changed_by := actor, changed_at := now,
        diff := some diff, full_record := ex2 }
    (.updated ex2,
     { db := { s.db with
                 inventory_items := s.db.inventory_items.set i ex2,
                 inventory_audit := entry :: s.db.inventory_audit },
       nextId := s.nextId + 1 })

/-- Lines 94 of `server.js`: overwrite `deleted_at` with the current
instant (`ex.updated_at = ex.deleted_at` copies the same string), and set
`updated_by`. -/
def deleteMutate (ex : JsObj) (actor : String) (now : Nat) : JsObj :=
  objSet (objSet (objSet ex "deleted_at" (.str (tsStr now)))
    "updated_at" (.str (tsStr now))) "updated_by" (.str actor)

/-- The `withDb` callback of `DELETE /api/v1/inventory/:id` (`server.js`
lines 92-96): find the item, remember the previous `deleted_at`, overwrite
`deleted_at` (and `updated_at`, `updated_by`) with the current instant, and
unshift a DELETE audit entry with the one-field diff and a copy of the
mutated item. Re-deleting an already-deleted item takes the same path. -/
def deleteTx (id : JVal) (actor : String) (now : Nat) (s : St) : TxResult × St :=
  match findItemIdx s.db id with
  | none => (.notFound, s)
  | some i =>
    let ex := (s.db.inventory_items.getD i [])
    let beforeDel := objGet ex "deleted_at"
    let ex2 := deleteMutate ex actor now
    let entry : AuditEntry :=
      { audit_id := uuid s.nextId, item_id := objGet ex2 "item_id",
        operation := "DELETE", changed_by := actor, changed_at := now,
        diff := some [("deleted_at", { before := beforeDel, after := objGet ex2 "deleted_at" })],
        full_record := ex2 }
    (.deletedOk,
     { db := { s.db with
                 inventory_items := s.db.inventory_items.set i ex2,
                 inventory_audit := entry :: s.db.inventory_audit },
       nextId := s.nextId + 1 })

/-- A mutating API request, as seen by the route handlers. -/
inductive Op where
  | create (body : JsObj) (actor : String)
  | update (id : JVal) (body : JsObj) (actor : String)
  | del (id : JVal) (actor : String)

/-- HTTP-level outcome of one mutating request. -/
inductive Resp where
  | validation
  | noUpdates
  | created (item : JsObj)
  | updated (item : JsObj)
  | deletedOk
  | duplicateSku
  | notFound
deriving DecidableEq, Repr

def Resp.isSuccess : Resp → Bool
  | .created _ => true
  | .updated _ => true
  | .deletedOk => true
  | _ => false

def respOfTx : TxResult → Resp
  | .created r => .created r
  | .updated r => .updated r
  | .deletedOk => .deletedOk
  | .duplicateSku => .duplicateSku
  | .notFound => .notFound

/-- Result of one mutating request: the response, whether `withDb` ran
(and therefore wrote the document file), and the state afterwards. -/
structure StepRes where
  resp : Resp
  wrote : Bool
  st : St
deriving Repr

/-- One mutating request at instant `now`, pre-transaction validation
included: the POST handler rejects a falsy `sku` or `product_name` before
`withDb` (`server.js` line 51), and the PATCH handler rejects an empty
update set before `withDb` (line 78). -/
def stepOp (now : Nat) (op : Op) (s : St) : StepRes :=
  match op with
  | .create body actor =>
    if !truthy (objGet body "sku") || !truthy (objGet body "product_name") then
      ⟨.validation, false, s⟩
    else
      let r := createTx body actor now s
      ⟨respOfTx r.1, true, r.2⟩
  | .update id body actor =>
    match allowedUpdates body with
    | [] => ⟨.noUpdates, false, s⟩
    | us =>
      let r := updateTx id us actor now s
      ⟨respOfTx r.1, true, r.2⟩
  | .del id actor =>
    let r := deleteTx id actor now s
    ⟨respOfTx r.1, true, r.2⟩

/-- A sequence of mutating requests, one per instant, starting at `t`.
Successive instants model the strictly advancing wall clock across the
serialized transactions. -/
def runOps : List Op → Nat → St → St
  | [], _, s => s
  | op :: rest, t, s => runOps rest (t + 1) (stepOp t op s).st

def initSt : St := ⟨emptyDb, 0⟩

/-- What the data file can hold: a document that `JSON.parse` accepts, or
bytes it rejects. A document written by `saveDb` always parses back to the
same value, so the parsable case carries the document itself. -/
inductive FileContent where
  | parsable (db : Db)
  | corrupt (raw : String)
deriving DecidableEq, Repr

/-- Filesystem state seen by the store: the data file (absent or present)
and the files renamed aside by corruption recovery, under their new names. -/
structure Fs where
  dbFile : Option FileContent
  renamedAside : List (String × FileContent)
deriving DecidableEq, Repr

/-- `loadDb()` (`server.js` lines 9-13): missing file yields a fresh empty
document; unparsable data is renamed to `data.json.corrupt.<timestamp>` and
a fresh empty document is returned. The function is total: the corruption
case is recovered, never raised to the caller. -/
def loadDb (now : Nat) (fs : Fs) : Db × Fs :=
  match fs.dbFile with
  | none => (emptyDb, fs)
  | some (.parsable db) => (db, fs)
  | some (.corrupt raw) =>
    (emptyDb,
     { dbFile := none,
       renamedAside := fs.renamedAside ++ [("data.json.corrupt." ++ toString now, .corrupt raw)] })

/-- `saveDb(db)` (`server.js` line 14): full-file rewrite of the document. -/
def saveDb (db : Db) (fs : Fs) : Fs :=
  { fs with dbFile := some (.parsable db) }

/-- The body of `withDb` once the lock is held (`server.js` lines 21-23):
load the document, run the transaction on it, save whatever the document
now is — the save happens whether or not the transaction made a change. -/
def withDb (tx : St → TxResult × St) (now : Nat) (nextId : Nat) (fs : Fs) :
    TxResult × Fs × Nat :=
  let (db, fs1) := loadDb now fs
  let (r, s2) := tx ⟨db, nextId⟩
  (r, saveDb s2.db fs1, s2.nextId)

/-- Where one `withDb` caller stands: still in the polling `while` loop,
inside its load/mutate/save cycle, or finished. -/
inductive Phase where
  | waiting
  | critical
  | done
deriving DecidableEq, Repr

/-- State of the polling mutex (`server.js` lines 16-26): the `lock.locked`
flag plus the phase of every caller (callers are indexed by `Nat`). -/
structure LockState where
  locked : Bool
  phase : Nat → Phase

/-- Scheduler actions. `poll t` is one resumption of caller `t`'s `while`
loop: it re-reads `lock.locked` and, when the lock is free, leaves the loop
and sets `lock.locked = true` — one atomic step, because no `await`
separates the check from the assignment in the source. `finish t` is the
completion of caller `t`'s load/mutate/save cycle together with the
`finally` release of the flag. Steps whose guard fails change nothing
(a failed poll goes back to `setTimeout`). -/
inductive LockAction where
  | poll (t : Nat)
  | finish (t : Nat)

def lockStep (a : LockAction) (s : LockState) : LockState :=
  match a with
  | .poll t =>
    if s.phase t = .waiting ∧ s.locked = false then
      ⟨true, fun u => if u = t then .critical else s.phase u⟩
    else s
  | .finish t =>
    if s.phase t = .critical then
      ⟨false, fun u => if u = t then .done else s.phase u⟩
    else s

/-- Everyone has called `withDb` and is polling; the lock starts free. -/
def lockInit : LockState := ⟨false, fun _ => .waiting⟩

/-- The state after `n` scheduler steps of `sched`. -/
def lockRun (sched : Nat → LockAction) : Nat → LockState
  | 0 => lockInit
  | n + 1 => lockStep (sched n) (lockRun sched n)

/-- Starvation-freedom as the claim states it: whenever a waiting caller's
poll is scheduled again and again forever, that caller eventually enters
its load/mutate/save cycle. -/
def StarvationFree : Prop :=
  ∀ (sched : Nat → LockAction) (t : Nat),
    (∀ n, ∃ m, n ≤ m ∧ sched m = .poll t) →
    ∃ n, (lockRun sched n).phase t = .critical

/-- The adversarial schedule refuting starvation-freedom: in round `j`,
caller `j+1` acquires the lock, caller `0` polls while it is held, and
caller `j+1` releases. Caller `0` polls infinitely often yet always finds
the lock taken. -/
def hungrySched (n : Nat) : LockAction :=
  if n % 3 = 0 then .poll (n / 3 + 1)
  else if n % 3 = 1 then .poll 0
  else .finish (n / 3 + 1)

/-- The state of the `hungrySched` run at the start of round `j`: lock
free, callers `1..j` finished, caller `0` (and everyone above `j`) still
waiting. -/
def hS0 (j : Nat) : LockState :=
  ⟨false, fun t => if t = 0 then .waiting else if t ≤ j then .done else .waiting⟩

/-- The state of the `hungrySched` run in the middle of round `j`: caller
`j+1` holds the lock, caller `0` still waiting. -/
def hS1 (j : Nat) : LockState :=
  ⟨true, fun t =>
    if t = 0 then .waiting
    else if t ≤ j then .done
    else if t = j + 1 then .critical
    else .waiting⟩

/-- The mutual-exclusion invariant of the lock automaton: when the flag is
clear nobody is in a cycle, and at most one caller is in a cycle. -/
def LockInv (s : LockState) : Prop :=
  (s.locked = false → ∀ t, s.phase t ≠ .critical) ∧
  (∀ t u, s.phase t = .critical → s.phase u = .critical → t = u)

/-- The keys `POST /api/v1/inventory` intends to control itself
(`server.js` line 55); a request body carrying one of them overrides the
generated value because `Object.assign` puts the body last. -/
def reservedKeys : List String :=
  ["item_id", "created_at", "updated_at", "deleted_at", "created_by", "updated_by"]

/-- A create body that does not exploit the `Object.assign` override. -/
def goodCreateBody (body : JsObj) : Bool :=
  reservedKeys.all (fun k => !objHas body k)

/-- Requests whose create bodies leave the generated fields alone. -/
def GoodOp : Op → Prop
  | .create body _ => goodCreateBody body = true
  | _ => True

/-- `deleted_at` is unset: the key is absent (`undefined`) or `null`. -/
def Unset (o : Option JVal) : Prop := o = none ∨ o = some .null

/-- Data-model well-formedness of `deleted_at`: unset, or a truthy value
(every value the service itself writes there is a nonempty timestamp
string). -/
def WFDeleted (db : Db) : Prop :=
  ∀ x ∈ db.inventory_items,
    Unset (objGet x "deleted_at") ∨ truthy (objGet x "deleted_at") = true

/-- The audit timestamps, front (newest) first. -/
def auditTimes (db : Db) : List Nat :=
  db.inventory_audit.map (fun e => e.changed_at)

/-! ### Helper lemmas: JavaScript object operations -/

theorem objGet_objSet_self (o : JsObj) (k : String) (v : JVal) :
    objGet (objSet o k v) k = some v := by
  induction o with
  | nil => simp [objSet, objGet]
  | cons p rest ih =>
    obtain ⟨k2, v2⟩ := p
    by_cases h : k2 = k
    · simp [objSet, h, objGet]
    · simpa [objSet, h, objGet] using ih

theorem objGet_objSet_ne (o : JsObj) (k k2 : String) (v : JVal) (h : k2 ≠ k) :
    objGet (objSet o k v) k2 = objGet o k2 := by
  induction o with
  | nil => simp [objSet, objGet, Ne.symm h]
  | cons p rest ih =>
    obtain ⟨k3, v3⟩ := p
    by_cases h3 : k3 = k
    · subst h3
      simp [objSet, objGet, Ne.symm h]
    · by_cases h4 : k3 = k2
      · subst h4
        simp [objSet, objGet, h3]
      · simpa [objSet, h3, objGet, h4] using ih

theorem objGet_objAssign_of_not_has (t src : JsObj) (k : String)
    (h : objHas src k = false) : objGet (objAssign t src) k = objGet t k := by
  induction src generalizing t with
  | nil => simp [objAssign]
  | cons p rest ih =>
    obtain ⟨k2, v2⟩ := p
    simp only [objHas, List.any_cons, Bool.or_eq_false_iff, decide_eq_false_iff_not] at h
    calc objGet (objAssign t ((k2, v2) :: rest)) k
        = objGet (objAssign (objSet t k2 v2) rest) k := rfl
      _ = objGet (objSet t k2 v2) k := ih (objSet t k2 v2) (by simpa [objHas] using h.2)
      _ = objGet t k := objGet_objSet_ne t k2 k v2 (fun hk => h.1 hk.symm)

theorem objHas_eq_isSome (o : JsObj) (k : String) :
    objHas o k = (objGet o k).isSome := by
  induction o with
  | nil => simp [objHas, objGet]
  | cons p rest ih =>
    obtain ⟨k2, v2⟩ := p
    by_cases h : k2 = k
    · simp [objHas, objGet, h]
    · simpa [objHas, objGet, h] using ih

theorem objGet_setAll_not_mem (us : List (String × JVal)) (ex : JsObj) (k : String)
    (h : k ∉ us.map Prod.fst) :
    objGet (us.foldl (fun e p => objSet e p.1 (coerceField p.1 p.2)) ex) k = objGet ex k := by
  induction us generalizing ex with
  | nil => simp
  | cons p rest ih =>
    simp only [List.map_cons, List.mem_cons] at h
    push_neg at h
    simp only [List.foldl_cons]
    rw [ih _ h.2]
    exact objGet_objSet_ne ex p.1 k _ h.1

theorem objGet_setAll_mem (us : List (String × JVal)) (ex : JsObj) (k : String) (v : JVal)
    (hnd : (us.map Prod.fst).Nodup) (hmem : (k, v) ∈ us) :
    objGet (us.foldl (fun e p => objSet e p.1 (coerceField p.1 p.2)) ex) k
      = some (coerceField k v) := by
  induction us generalizing ex with
  | nil => simp at hmem
  | cons p rest ih =>
    simp only [List.map_cons, List.nodup_cons] at hnd
    rcases List.mem_cons.mp hmem with hhead | htail
    · subst hhead
      simp only [List.foldl_cons]
      rw [objGet_setAll_not_mem rest _ k hnd.1, objGet_objSet_self]
    · have hk : p.1 ≠ k := by
        intro hk
        exact hnd.1 (hk ▸ List.mem_map_of_mem Prod.fst htail)
      simp only [List.foldl_cons]
      exact ih _ hnd.2 htail

theorem mem_allowedUpdates (body : JsObj) (k : String) (v : JVal)
    (h : (k, v) ∈ allowedUpdates body) : k ∈ allowedFields ∧ objGet body k = some v := by
  simp only [allowedUpdates, List.mem_filterMap] at h
  obtain ⟨k2, hk2, hmap⟩ := h
  cases hv : objGet body k2 with
  | none =>
    rw [hv] at hmap
    simp at hmap
  | some v2 =>
    rw [hv] at hmap
    simp only [Option.map_some'] at hmap
    obtain ⟨rfl, rfl⟩ := Prod.mk.injEq .. |>.mp (Option.some.inj hmap)
    exact ⟨hk2, hv⟩

theorem allowedUpdates_keys_sublist (body : JsObj) :
    List.Sublist ((allowedUpdates body).map Prod.fst) allowedFields := by
  unfold allowedUpdates
  generalize allowedFields = l
  induction l with
  | nil => simp
  | cons k rest ih =>
    simp only [List.filterMap_cons]
    cases h : objGet body k with
    | none => simpa using ih.cons k
    | some v => simpa using ih.cons₂ k

theorem allowedUpdates_keys_nodup (body : JsObj) :
    ((allowedUpdates body).map Prod.fst).Nodup :=
  List.Nodup.sublist (allowedUpdates_keys_sublist body) (by decide)

theorem objGet_applyUpdates_not_touched (ex : JsObj) (us : List (String × JVal))
    (actor : String) (now : Nat) (k : String) (h : k ∉ us.map Prod.fst)
    (h1 : k ≠ "updated_at") (h2 : k ≠ "updated_by") :
    objGet (applyUpdates ex us actor now) k = objGet ex k := by
  unfold applyUpdates
  rw [objGet_objSet_ne _ _ _ _ h2, objGet_objSet_ne _ _ _ _ h1,
    objGet_setAll_not_mem _ _ _ h]

theorem objGet_applyUpdates_mem (ex : JsObj) (us : List (String × JVal))
    (actor : String) (now : Nat) (k : String) (v : JVal)
    (hnd : (us.map Prod.fst).Nodup) (hmem : (k, v) ∈ us)
    (h1 : k ≠ "updated_at") (h2 : k ≠ "updated_by") :
    objGet (applyUpdates ex us actor now) k = some (coerceField k v) := by
  unfold applyUpdates
  rw [objGet_objSet_ne _ _ _ _ h2, objGet_objSet_ne _ _ _ _ h1,
    objGet_setAll_mem _ _ _ _ hnd hmem]

/-! ### Helper lemmas: generated ids and timestamps -/

theorem uuid_injective : Function.Injective uuid := by
  intro a b h
  simp only [uuid, JVal.str.injEq] at h
  have := congrArg (fun s => s.data.length) h
  simpa using this

theorem truthy_tsStr (t : Nat) : truthy (some (.str (tsStr t))) = true := by
  simp only [truthy, decide_eq_true_eq, tsStr]
  intro h
  have := congrArg (fun s => s.data.length) h
  simp at this

theorem truthy_ne_null {o : Option JVal} (h : truthy o = true) :
    o ≠ some .null ∧ o ≠ none := by
  constructor <;> rintro rfl <;> simp [truthy] at h

/-! ### Helper lemmas: item lookup -/

theorem idxOfItem_lt (id : JVal) (l : List JsObj) (i : Nat)
    (h : idxOfItem id l = some i) : i < l.length := by
  induction l generalizing i with
  | nil => simp [idxOfItem] at h
  | cons x rest ih =>
    by_cases hx : objGet x "item_id" = some id
    · simp only [idxOfItem, if_pos hx, Option.some.injEq] at h
      simp only [List.length_cons]
      omega
    · simp only [idxOfItem, if_neg hx, Option.map_eq_some'] at h
      obtain ⟨j, hj, rfl⟩ := h
      have := ih j hj
      simp only [List.length_cons]
      omega

theorem idxOfItem_found (id : JVal) (l : List JsObj) (i : Nat)
    (h : idxOfItem id l = some i) :
    objGet (l.getD i []) "item_id" = some id := by
  induction l generalizing i with
  | nil => simp [idxOfItem] at h
  | cons x rest ih =>
    by_cases hx : objGet x "item_id" = some id
    · simp only [idxOfItem, if_pos hx, Option.some.injEq] at h
      subst h
      simpa using hx
    · simp only [idxOfItem, if_neg hx, Option.map_eq_some'] at h
      obtain ⟨j, hj, rfl⟩ := h
      simpa using ih j hj

/-! ### Helper lemmas: unfolding the transactions and the handler step -/

theorem createTx_of_dup (body : JsObj) (actor : String) (now : Nat) (s : St)
    (h : s.db.inventory_items.any
      (fun x => decide (objGet x "sku" = objGet body "sku")
        && !truthy (objGet x "deleted_at")) = true) :
    createTx body actor now s = (.duplicateSku, s) := by
  simp [createTx, h]

theorem createTx_of_fresh (body : JsObj) (actor : String) (now : Nat) (s : St)
    (h : s.db.inventory_items.any
      (fun x => decide (objGet x "sku" = objGet body "sku")
        && !truthy (objGet x "deleted_at")) = false) :
    createTx body actor now s =
      (.created (createRecord body actor s.nextId now),
       { db := { s.db with
                   inventory_items :=
                     s.db.inventory_items ++ [createRecord body actor s.nextId now],
                   inventory_audit :=
                     { audit_id := uuid (s.nextId + 1), item_id := some (uuid s.nextId),
                       operation := "CREATE", changed_by := actor, changed_at := now,
                       diff := none,
                       full_record := createRecord body actor s.nextId now }
                       :: s.db.inventory_audit },
         nextId := s.nextId + 2 }) := by
  simp [createTx, h]

theorem updateTx_of_notFound (id : JVal) (us : List (String × JVal)) (actor : String)
    (now : Nat) (s : St) (h : findItemIdx s.db id = none) :
    updateTx id us actor now s = (.notFound, s) := by
  simp [updateTx, h]

theorem updateTx_of_found (id : JVal) (us : List (String × JVal)) (actor : String)
    (now : Nat) (s : St) (i : Nat) (h : findItemIdx s.db id = some i) :
    updateTx id us actor now s =
      (.updated (applyUpdates (s.db.inventory_items.getD i []) us actor now),
       { db := { s.db with
                   inventory_items :=
                     s.db.inventory_items.set i
                       (applyUpdates (s.db.inventory_items.getD i []) us actor now),
                   inventory_audit :=
                     { audit_id := uuid s.nextId,
                       item_id :=
                         objGet (applyUpdates (s.db.inventory_items.getD i []) us actor now)
                           "item_id",
                       operation := "UPDATE", changed_by := actor, changed_at := now,
                       diff := some (us.map (fun p =>
                         (p.1,
                          { before := objGet (s.db.inventory_items.getD i []) p.1,
                            after :=
                              objGet
                                (applyUpdates (s.db.inventory_items.getD i []) us actor now)
                                p.1 }))),
                       full_record :=
                         applyUpdates (s.db.inventory_items.getD i []) us actor now }
                       :: s.db.inventory_audit },
         nextId := s.nextId + 1 }) := by
  simp [updateTx, h]

theorem deleteTx_of_notFound (id : JVal) (actor : String) (now : Nat) (s : St)
    (h : findItemIdx s.db id = none) :
    deleteTx id actor now s = (.notFound, s) := by
  simp [deleteTx, h]

theorem deleteTx_of_found (id : JVal) (actor : String) (now : Nat) (s : St) (i : Nat)
    (h : findItemIdx s.db id = some i) :
    deleteTx id actor now s =
      (.deletedOk,
       { db := { s.db with
                   inventory_items :=
                     s.db.inventory_items.set i
                       (deleteMutate (s.db.inventory_items.getD i []) actor now),
                   inventory_audit :=
                     { audit_id := uuid s.nextId,
                       item_id :=
                         objGet (deleteMutate (s.db.inventory_items.getD i []) actor now)
                           "item_id",
                       operation := "DELETE", changed_by := actor, changed_at := now,
                       diff := some [("deleted_at",
                         { before := objGet (s.db.inventory_items.getD i []) "deleted_at",
                           after :=
                             objGet (deleteMutate (s.db.inventory_items.getD i []) actor now)
                               "deleted_at" })],
                       full_record :=
                         deleteMutate (s.db.inventory_items.getD i []) actor now }
                       :: s.db.inventory_audit },
         nextId := s.nextId + 1 }) := by
  simp [deleteTx, deleteMutate, h]

theorem stepOp_create_invalid (now : Nat) (body : JsObj) (actor : String) (s : St)
    (h : (!truthy (objGet body "sku") || !truthy (objGet body "product_name")) = true) :
    stepOp now (.create body actor) s = ⟨.validation, false, s⟩ := by
  simp [stepOp, h]

theorem stepOp_create_valid (now : Nat) (body : JsObj) (actor : String) (s : St)
    (h : (!truthy (objGet body "sku") || !truthy (objGet body "product_name")) = false) :
    stepOp now (.create body actor) s =
      ⟨respOfTx (createTx body actor now s).1, true, (createTx body actor now s).2⟩ := by
  simp [stepOp, h]

theorem stepOp_update_empty (now : Nat) (id : JVal) (body : JsObj) (actor : String) (s : St)
    (h : allowedUpdates body = []) :
    stepOp now (.update id body actor) s = ⟨.noUpdates, false, s⟩ := by
  simp [stepOp, h]

theorem stepOp_update_nonempty (now : Nat) (id : JVal) (body : JsObj) (actor : String)
    (s : St) (u : String × JVal) (us : List (String × JVal))
    (h : allowedUpdates body = u :: us) :
    stepOp now (.update id body actor) s =
      ⟨respOfTx (updateTx id (allowedUpdates body) actor now s).1, true,
       (updateTx id (allowedUpdates body) actor now s).2⟩ := by
  simp only [stepOp, h]

theorem stepOp_del_eq (now : Nat) (id : JVal) (actor : String) (s : St) :
    stepOp now (.del id actor) s =
      ⟨respOfTx (deleteTx id actor now s).1, true, (deleteTx id actor now s).2⟩ := rfl

/-- Exhaustive shape of one mutating request: either it fails and the
state is untouched, or it succeeds, prepends exactly one audit entry
stamped with the current instant, and either appends one new item or
rewrites one existing item in place; in both cases that item is the
entry's `full_record`. -/
theorem stepOp_shape (now : Nat) (op : Op) (s : St) :
    ((stepOp now op s).resp.isSuccess = false ∧ (stepOp now op s).st = s) ∨
    ((stepOp now op s).resp.isSuccess = true ∧
     ∃ e,
       (stepOp now op s).st.db.inventory_audit = e :: s.db.inventory_audit ∧
       e.changed_at = now ∧
       ((∃ r, (stepOp now op s).st.db.inventory_items = s.db.inventory_items ++ [r] ∧
          e.full_record = r) ∨
        (∃ i r, i < s.db.inventory_items.length ∧
          (stepOp now op s).st.db.inventory_items = s.db.inventory_items.set i r ∧
          e.full_record = r))) := by
  cases op with
  | create body actor =>
    cases hv : (!truthy (objGet body "sku") || !truthy (objGet body "product_name")) with
    | true =>
      left
      rw [stepOp_create_invalid now body actor s hv]
      exact ⟨rfl, rfl⟩
    | false =>
      rw [stepOp_create_valid now body actor s hv]
      cases hd : s.db.inventory_items.any
          (fun x => decide (objGet x "sku" = objGet body "sku")
            && !truthy (objGet x "deleted_at")) with
      | true =>
        left
        rw [createTx_of_dup body actor now s hd]
        exact ⟨rfl, rfl⟩
      | false =>
        right
        rw [createTx_of_fresh body actor now s hd]
        refine ⟨rfl, _, rfl, rfl, Or.inl ⟨_, rfl, rfl⟩⟩
  | update id body actor =>
    cases hU : allowedUpdates body with
    | nil =>
      left
      rw [stepOp_update_empty now id body actor s hU]
      exact ⟨rfl, rfl⟩
    | cons u us =>
      rw [stepOp_update_nonempty now id body actor s u us hU]
      cases hf : findItemIdx s.db id with
      | none =>
        left
        rw [updateTx_of_notFound id (allowedUpdates body) actor now s hf]
        exact ⟨rfl, rfl⟩
      | some i =>
        right
        rw [updateTx_of_found id (allowedUpdates body) actor now s i hf]
        exact ⟨rfl, _, rfl, rfl,
          Or.inr ⟨i, _, idxOfItem_lt id s.db.inventory_items i hf, rfl, rfl⟩⟩
  | del id actor =>
    rw [stepOp_del_eq now id actor s]
    cases hf : findItemIdx s.db id with
    | none =>
      left
      rw [deleteTx_of_notFound id actor now s hf]
      exact ⟨rfl, rfl⟩
    | some i =>
      right
      rw [deleteTx_of_found id actor now s i hf]
      exact ⟨rfl, _, rfl, rfl,
        Or.inr ⟨i, _, idxOfItem_lt id s.db.inventory_items i hf, rfl, rfl⟩⟩

/-! ### Helper lemmas: positional reads through list edits -/

theorem getD_set_self (l : List JsObj) (i : Nat) (r : JsObj) (h : i < l.length) :
    (l.set i r).getD i [] = r := by
  rw [List.getD_eq_getElem?_getD, List.getElem?_set_self h, Option.getD_some]

theorem getD_set_ne (l : List JsObj) (i j : Nat) (r : JsObj) (h : i ≠ j) :
    (l.set i r).getD j [] = l.getD j [] := by
  rw [List.getD_eq_getElem?_getD, List.getElem?_set_ne h, ← List.getD_eq_getElem?_getD]

theorem getD_append_lt (l l2 : List JsObj) (j : Nat) (h : j < l.length) :
    (l ++ l2).getD j [] = l.getD j [] := by
  rw [List.getD_eq_getElem?_getD, List.getElem?_append_left h, ← List.getD_eq_getElem?_getD]

theorem getD_concat_length (l : List JsObj) (r : JsObj) :
    (l ++ [r]).getD l.length [] = r := by
  rw [List.getD_eq_getElem?_getD, List.getElem?_concat_length, Option.getD_some]

/-! ### Helper lemmas: field reads through the mutations -/

theorem objGet_deleteMutate_deleted_at (ex : JsObj) (actor : String) (now : Nat) :
    objGet (deleteMutate ex actor now) "deleted_at" = some (.str (tsStr now)) := by
  unfold deleteMutate
  rw [objGet_objSet_ne _ _ _ _ (by decide), objGet_objSet_ne _ _ _ _ (by decide),
    objGet_objSet_self]

theorem objGet_deleteMutate_other (ex : JsObj) (actor : String) (now : Nat) (k : String)
    (h1 : k ≠ "deleted_at") (h2 : k ≠ "updated_at") (h3 : k ≠ "updated_by") :
    objGet (deleteMutate ex actor now) k = objGet ex k := by
  unfold deleteMutate
  rw [objGet_objSet_ne _ _ _ _ h3, objGet_objSet_ne _ _ _ _ h2, objGet_objSet_ne _ _ _ _ h1]

theorem not_mem_allowedUpdates_keys (body : JsObj) (k : String) (h : k ∉ allowedFields) :
    k ∉ (allowedUpdates body).map Prod.fst :=
  fun hin => h ((allowedUpdates_keys_sublist body).subset hin)

theorem objGet_applyUpdates_deleted_at (ex : JsObj) (body : JsObj) (actor : String)
    (now : Nat) :
    objGet (applyUpdates ex (allowedUpdates body) actor now) "deleted_at"
      = objGet ex "deleted_at" :=
  objGet_applyUpdates_not_touched ex _ actor now _
    (not_mem_allowedUpdates_keys body _ (by decide)) (by decide) (by decide)

theorem objGet_applyUpdates_item_id (ex : JsObj) (body : JsObj) (actor : String)
    (now : Nat) :
    objGet (applyUpdates ex (allowedUpdates body) actor now) "item_id"
      = objGet ex "item_id" :=
  objGet_applyUpdates_not_touched ex _ actor now _
    (not_mem_allowedUpdates_keys body _ (by decide)) (by decide) (by decide)

theorem goodCreateBody_not_has (body : JsObj) (h : goodCreateBody body = true)
    (k : String) (hk : k ∈ reservedKeys) : objHas body k = false := by
  simp only [goodCreateBody, List.all_eq_true] at h
  simpa using h k hk

theorem createRecord_defaults (body : JsObj) (actor : String) (i t : Nat)
    (h : goodCreateBody body = true) :
    objGet (createRecord body actor i t) "item_id" = some (uuid i) ∧
    objGet (createRecord body actor i t) "created_at" = some (.str (tsStr t)) ∧
    objGet (createRecord body actor i t) "updated_at" = some (.str (tsStr t)) ∧
    objGet (createRecord body actor i t) "deleted_at" = some JVal.null ∧
    objGet (createRecord body actor i t) "created_by" = some (.str actor) ∧
    objGet (createRecord body actor i t) "updated_by" = some (.str actor) := by
  unfold createRecord
  refine ⟨?_, ?_, ?_, ?_, ?_, ?_⟩ <;>
    rw [objGet_objAssign_of_not_has _ _ _ (goodCreateBody_not_has body h _ (by decide))] <;>
    simp [objGet]

/-! ### Helper lemmas: the audit trail along a run -/

theorem runOps_cons (op : Op) (rest : List Op) (t : Nat) (s : St) :
    runOps (op :: rest) t s = runOps rest (t + 1) (stepOp t op s).st := rfl

theorem runOps_audit_suffix (ops : List Op) (t : Nat) (s : St) :
    List.IsSuffix s.db.inventory_audit ((runOps ops t s).db.inventory_audit) := by
  induction ops generalizing t s with
  | nil => exact List.suffix_refl _
  | cons op rest ih =>
    rw [runOps_cons]
    refine List.IsSuffix.trans ?_ (ih (t + 1) (stepOp t op s).st)
    rcases stepOp_shape t op s with ⟨_, hst⟩ | ⟨_, e, he, _⟩
    · rw [hst]
    · rw [he]
      exact List.suffix_cons e _

theorem auditOK_step (t : Nat) (op : Op) (s : St)
    (hb : ∀ e ∈ s.db.inventory_audit, e.changed_at < t)
    (hs : List.Sorted (fun a b => b ≤ a) (auditTimes s.db)) :
    (∀ e ∈ (stepOp t op s).st.db.inventory_audit, e.changed_at < t + 1) ∧
    List.Sorted (fun a b => b ≤ a) (auditTimes (stepOp t op s).st.db) := by
  rcases stepOp_shape t op s with ⟨_, hst⟩ | ⟨_, e, he, het, _⟩
  · rw [hst]
    exact ⟨fun x hx => Nat.lt_succ_of_lt (hb x hx), hs⟩
  · constructor
    · rw [he]
      rintro x hx
      rcases List.mem_cons.mp hx with rfl | hx2
      · omega
      · exact Nat.lt_succ_of_lt (hb x hx2)
    · unfold auditTimes at hs ⊢
      rw [he, List.map_cons]
      refine List.sorted_cons.mpr ⟨?_, hs⟩
      intro b hb2
      rw [het]
      obtain ⟨x, hx, rfl⟩ := List.mem_map.mp hb2
      exact Nat.le_of_lt (hb x hx)

theorem step_deleted_stable (now : Nat) (op : Op) (s : St) (j : Nat)
    (h : truthy (objGet (s.db.inventory_items.getD j []) "deleted_at") = true) :
    truthy (objGet ((stepOp now op s).st.db.inventory_items.getD j []) "deleted_at")
      = true := by
  have hjlen : j < s.db.inventory_items.length := by
    by_contra hge
    rw [List.getD_eq_default _ _ (by omega)] at h
    simp [objGet, truthy] at h
  cases op with
  | create body actor =>
    cases hv : (!truthy (objGet body "sku") || !truthy (objGet body "product_name")) with
    | true => rw [stepOp_create_invalid now body actor s hv]; exact h
    | false =>
      rw [stepOp_create_valid now body actor s hv]
      cases hd : s.db.inventory_items.any
          (fun x => decide (objGet x "sku" = objGet body "sku")
            && !truthy (objGet x "deleted_at")) with
      | true => rw [createTx_of_dup body actor now s hd]; exact h
      | false =>
        rw [createTx_of_fresh body actor now s hd]
        dsimp only
        rw [getD_append_lt _ _ _ hjlen]
        exact h
  | update id body actor =>
    cases hU : allowedUpdates body with
    | nil => rw [stepOp_update_empty now id body actor s hU]; exact h
    | cons u us =>
      rw [stepOp_update_nonempty now id body actor s u us hU]
      cases hf : findItemIdx s.db id with
      | none => rw [updateTx_of_notFound id (allowedUpdates body) actor now s hf]; exact h
      | some i =>
        rw [updateTx_of_found id (allowedUpdates body) actor now s i hf]
        dsimp only
        by_cases hij : i = j
        · subst hij
          rw [getD_set_self _ _ _ (idxOfItem_lt id s.db.inventory_items i hf),
            objGet_applyUpdates_deleted_at]
          exact h
        · rw [getD_set_ne _ _ _ _ hij]
          exact h
  | del id actor =>
    rw [stepOp_del_eq now id actor s]
    cases hf : findItemIdx s.db id with
    | none => rw [deleteTx_of_notFound id actor now s hf]; exact h
    | some i =>
      rw [deleteTx_of_found id actor now s i hf]
      dsimp only
      by_cases hij : i = j
      · subst hij
        rw [getD_set_self _ _ _ (idxOfItem_lt id s.db.inventory_items i hf),
          objGet_deleteMutate_deleted_at]
        exact truthy_tsStr now
      · rw [getD_set_ne _ _ _ _ hij]
        exact h

theorem run_deleted_stable (ops : List Op) (t : Nat) (s : St) (j : Nat)
    (h : truthy (objGet (s.db.inventory_items.getD j []) "deleted_at") = true) :
    truthy (objGet ((runOps ops t s).db.inventory_items.getD j []) "deleted_at") = true := by
  induction ops generalizing t s with
  | nil => exact h
  | cons op rest ih =>
    rw [runOps_cons]
    exact ih (t + 1) (stepOp t op s).st (step_deleted_stable t op s j h)

/-! ### Helper lemmas: generated item ids stay unique along a run -/

theorem itemIds_pointwise (s : St) (items2 : List JsObj) (nid2 : Nat)
    (hlen : items2.length = s.db.inventory_items.length)
    (hge : s.nextId ≤ nid2)
    (hids : ∀ j, objGet (items2.getD j []) "item_id"
      = objGet (s.db.inventory_items.getD j []) "item_id")
    (h1 : ∀ j, j < s.db.inventory_items.length →
      ∃ n, n < s.nextId ∧
        objGet (s.db.inventory_items.getD j []) "item_id" = some (uuid n))
    (h2 : ∀ j1 j2, j1 < s.db.inventory_items.length → j2 < s.db.inventory_items.length →
      objGet (s.db.inventory_items.getD j1 []) "item_id"
        = objGet (s.db.inventory_items.getD j2 []) "item_id" → j1 = j2) :
    (∀ j, j < items2.length →
      ∃ n, n < nid2 ∧ objGet (items2.getD j []) "item_id" = some (uuid n)) ∧
    (∀ j1 j2, j1 < items2.length → j2 < items2.length →
      objGet (items2.getD j1 []) "item_id" = objGet (items2.getD j2 []) "item_id" →
      j1 = j2) := by
  constructor
  · intro j hj
    rw [hlen] at hj
    obtain ⟨n, hn, he⟩ := h1 j hj
    exact ⟨n, by omega, by rw [hids j, he]⟩
  · intro j1 j2 hj1 hj2 he
    rw [hlen] at hj1 hj2
    rw [hids j1, hids j2] at he
    exact h2 j1 j2 hj1 hj2 he

theorem itemIds_step (now : Nat) (op : Op) (s : St) (hop : GoodOp op)
    (h1 : ∀ j, j < s.db.inventory_items.length →
      ∃ n, n < s.nextId ∧
        objGet (s.db.inventory_items.getD j []) "item_id" = some (uuid n))
    (h2 : ∀ j1 j2, j1 < s.db.inventory_items.length → j2 < s.db.inventory_items.length →
      objGet (s.db.inventory_items.getD j1 []) "item_id"
        = objGet (s.db.inventory_items.getD j2 []) "item_id" → j1 = j2) :
    (∀ j, j < (stepOp now op s).st.db.inventory_items.length →
      ∃ n, n < (stepOp now op s).st.nextId ∧
        objGet ((stepOp now op s).st.db.inventory_items.getD j []) "item_id"
          = some (uuid n)) ∧
    (∀ j1 j2, j1 < (stepOp now op s).st.db.inventory_items.length →
      j2 < (stepOp now op s).st.db.inventory_items.length →
      objGet ((stepOp now op s).st.db.inventory_items.getD j1 []) "item_id"
        = objGet ((stepOp now op s).st.db.inventory_items.getD j2 []) "item_id" →
      j1 = j2) := by
  cases op with
  | create body actor =>
    cases hv : (!truthy (objGet body "sku") || !truthy (objGet body "product_name")) with
    | true => rw [stepOp_create_invalid now body actor s hv]; exact ⟨h1, h2⟩
    | false =>
      rw [stepOp_create_valid now body actor s hv]
      cases hd : s.db.inventory_items.any
          (fun x => decide (objGet x "sku" = objGet body "sku")
            && !truthy (objGet x "deleted_at")) with
      | true => rw [createTx_of_dup body actor now s hd]; exact ⟨h1, h2⟩
      | false =>
        rw [createTx_of_fresh body actor now s hd]
        dsimp only
        have hgood : goodCreateBody body = true := hop
        have hnewid :
            objGet ((s.db.inventory_items
              ++ [createRecord body actor s.nextId now]).getD
                s.db.inventory_items.length []) "item_id" = some (uuid s.nextId) := by
          rw [getD_concat_length]
          exact (createRecord_defaults body actor s.nextId now hgood).1
        have hlen2 :
            (s.db.inventory_items ++ [createRecord body actor s.nextId now]).length
              = s.db.inventory_items.length + 1 := by
          simp
        constructor
        · intro j hj
          rw [hlen2] at hj
          by_cases hjl : j < s.db.inventory_items.length
          · obtain ⟨n, hn, he⟩ := h1 j hjl
            refine ⟨n, by omega, ?_⟩
            rw [getD_append_lt _ _ _ hjl, he]
          · have hj2 : j = s.db.inventory_items.length := by omega
            subst hj2
            exact ⟨s.nextId, by omega, hnewid⟩
        · intro j1 j2 hj1 hj2 he
          rw [hlen2] at hj1 hj2
          by_cases hl1 : j1 < s.db.inventory_items.length <;>
            by_cases hl2 : j2 < s.db.inventory_items.length
          · rw [getD_append_lt _ _ _ hl1, getD_append_lt _ _ _ hl2] at he
            exact h2 j1 j2 hl1 hl2 he
          · have hj2e : j2 = s.db.inventory_items.length := by omega
            subst hj2e
            rw [getD_append_lt _ _ _ hl1, hnewid] at he
            obtain ⟨n, hn, hen⟩ := h1 j1 hl1
            rw [hen] at he
            have := uuid_injective (Option.some.inj he)
            omega
          · have hj1e : j1 = s.db.inventory_items.length := by omega
            subst hj1e
            rw [getD_append_lt _ _ _ hl2, hnewid] at he
            obtain ⟨n, hn, hen⟩ := h1 j2 hl2
            rw [hen] at he
            have := uuid_injective (Option.some.inj he.symm)
            omega
          · omega
  | update id body actor =>
    cases hU : allowedUpdates body with
    | nil => rw [stepOp_update_empty now id body actor s hU]; exact ⟨h1, h2⟩
    | cons u us =>
      rw [stepOp_update_nonempty now id body actor s u us hU]
      cases hf : findItemIdx s.db id with
      | none =>
        rw [updateTx_of_notFound id (allowedUpdates body) actor now s hf]
        exact ⟨h1, h2⟩
      | some i =>
        rw [updateTx_of_found id (allowedUpdates body) actor now s i hf]
        dsimp only
        refine itemIds_pointwise s _ _ (by simp) (by omega) (fun j => ?_) h1 h2
        by_cases hij : i = j
        · subst hij
          rw [getD_set_self _ _ _ (idxOfItem_lt id s.db.inventory_items i hf),
            objGet_applyUpdates_item_id]
        · rw [getD_set_ne _ _ _ _ hij]
  | del id actor =>
    rw [stepOp_del_eq now id actor s]
    cases hf : findItemIdx s.db id with
    | none => rw [deleteTx_of_notFound id actor now s hf]; exact ⟨h1, h2⟩
    | some i =>
      rw [deleteTx_of_found id actor now s i hf]
      dsimp only
      refine itemIds_pointwise s _ _ (by simp) (by omega) (fun j => ?_) h1 h2
      by_cases hij : i = j
      · subst hij
        rw [getD_set_self _ _ _ (idxOfItem_lt id s.db.inventory_items i hf),
          objGet_deleteMutate_other _ _ _ _ (by decide) (by decide) (by decide)]
      · rw [getD_set_ne _ _ _ _ hij]

theorem itemIds_run (ops : List Op) (t : Nat) (s : St)
    (hops : ∀ op ∈ ops, GoodOp op)
    (h1 : ∀ j, j < s.db.inventory_items.length →
      ∃ n, n < s.nextId ∧
        objGet (s.db.inventory_items.getD j []) "item_id" = some (uuid n))
    (h2 : ∀ j1 j2, j1 < s.db.inventory_items.length → j2 < s.db.inventory_items.length →
      objGet (s.db.inventory_items.getD j1 []) "item_id"
        = objGet (s.db.inventory_items.getD j2 []) "item_id" → j1 = j2) :
    (∀ j, j < (runOps ops t s).db.inventory_items.length →
      ∃ n, n < (runOps ops t s).nextId ∧
        objGet ((runOps ops t s).db.inventory_items.getD j []) "item_id"
          = some (uuid n)) ∧
    (∀ j1 j2, j1 < (runOps ops t s).db.inventory_items.length →
      j2 < (runOps ops t s).db.inventory_items.length →
      objGet ((runOps ops t s).db.inventory_items.getD j1 []) "item_id"
        = objGet ((runOps ops t s).db.inventory_items.getD j2 []) "item_id" →
      j1 = j2) := by
  induction ops generalizing t s with
  | nil => exact ⟨h1, h2⟩
  | cons op rest ih =>
    rw [runOps_cons]
    obtain ⟨g1, g2⟩ := itemIds_step t op s (hops op (List.mem_cons_self op rest)) h1 h2
    exact ih (t + 1) (stepOp t op s).st
      (fun o ho => hops o (List.mem_cons_of_mem op ho)) g1 g2

theorem auditOK_run (ops : List Op) (t : Nat) (s : St)
    (hb : ∀ e ∈ s.db.inventory_audit, e.changed_at < t)
    (hs : List.Sorted (fun a b => b ≤ a) (auditTimes s.db)) :
    (∀ e ∈ (runOps ops t s).db.inventory_audit, e.changed_at < t + ops.length) ∧
    List.Sorted (fun a b => b ≤ a) (auditTimes (runOps ops t s).db) := by
  induction ops generalizing t s with
  | nil => exact ⟨fun x hx => by simpa using hb x hx, hs⟩
  | cons op rest ih =>
    rw [runOps_cons]
    obtain ⟨hb2, hs2⟩ := auditOK_step t op s hb hs
    obtain ⟨hb3, hs3⟩ := ih (t + 1) (stepOp t op s).st hb2 hs2
    refine ⟨fun x hx => ?_, hs3⟩
    have := hb3 x hx
    simp only [List.length_cons]
    omega

/-! ### Helper lemmas: the polling mutex -/

theorem lockState_eq (a b : LockState) (h1 : a.locked = b.locked)
    (h2 : ∀ t, a.phase t = b.phase t) : a = b := by
  cases a
  cases b
  rw [LockState.mk.injEq]
  exact ⟨h1, funext h2⟩

theorem lockInv_init : LockInv lockInit := by
  constructor
  · intro _ t
    simp [lockInit]
  · intro t u ht _
    simp [lockInit] at ht

theorem lockInv_step (a : LockAction) (s : LockState) (h : LockInv s) :
    LockInv (lockStep a s) := by
  obtain ⟨hfree, huniq⟩ := h
  cases a with
  | poll t =>
    unfold lockStep
    dsimp only
    by_cases hc : s.phase t = .waiting ∧ s.locked = false
    · rw [if_pos hc]
      constructor
      · intro hl
        simp at hl
      · intro a b ha hb
        simp only at ha hb
        by_cases hat : a = t
        · by_cases hbt : b = t
          · rw [hat, hbt]
          · rw [if_neg hbt] at hb
            exact absurd hb (hfree hc.2 b)
        · rw [if_neg hat] at ha
          exact absurd ha (hfree hc.2 a)
    · rw [if_neg hc]
      exact ⟨hfree, huniq⟩
  | finish t =>
    unfold lockStep
    dsimp only
    by_cases hc : s.phase t = .critical
    · rw [if_pos hc]
      constructor
      · intro _ u
        simp only
        by_cases hut : u = t
        · rw [if_pos hut]
          simp
        · rw [if_neg hut]
          intro hu
          exact hut (huniq u t hu hc)
      · intro a b ha hb
        simp only at ha hb
        by_cases hat : a = t
        · rw [if_pos hat] at ha
          simp at ha
        · rw [if_neg hat] at ha
          by_cases hbt : b = t
          · rw [if_pos hbt] at hb
            simp at hb
          · rw [if_neg hbt] at hb
            exact huniq a b ha hb
    · rw [if_neg hc]
      exact ⟨hfree, huniq⟩

theorem lockInv_run (sched : Nat → LockAction) (n : Nat) : LockInv (lockRun sched n) := by
  induction n with
  | zero => exact lockInv_init
  | succ n ih => exact lockInv_step (sched n) (lockRun sched n) ih

theorem hungrySched_3j (j : Nat) : hungrySched (3 * j) = .poll (j + 1) := by
  unfold hungrySched
  rw [if_pos (by omega)]
  congr 1
  omega

theorem hungrySched_3j1 (j : Nat) : hungrySched (3 * j + 1) = .poll 0 := by
  unfold hungrySched
  rw [if_neg (by omega), if_pos (by omega)]

theorem hungrySched_3j2 (j : Nat) : hungrySched (3 * j + 2) = .finish (j + 1) := by
  unfold hungrySched
  rw [if_neg (by omega), if_neg (by omega)]
  congr 1
  omega

theorem lockInit_eq_hS0 : lockInit = hS0 0 := by
  refine lockState_eq _ _ rfl (fun t => ?_)
  rcases t with _ | t2 <;> simp [lockInit, hS0]

theorem hungry_step0 (j : Nat) : lockStep (.poll (j + 1)) (hS0 j) = hS1 j := by
  unfold lockStep
  dsimp only
  rw [if_pos ⟨by simp [hS0], rfl⟩]
  refine lockState_eq _ _ rfl (fun u => ?_)
  simp only [hS0, hS1]
  split_ifs <;> first | rfl | omega

theorem hungry_step1 (j : Nat) : lockStep (.poll 0) (hS1 j) = hS1 j := by
  unfold lockStep
  dsimp only
  rw [if_neg]
  rintro ⟨_, hl⟩
  simp [hS1] at hl

theorem hungry_step2 (j : Nat) : lockStep (.finish (j + 1)) (hS1 j) = hS0 (j + 1) := by
  unfold lockStep
  dsimp only
  rw [if_pos (by simp [hS1])]
  refine lockState_eq _ _ rfl (fun u => ?_)
  simp only [hS0, hS1]
  split_ifs <;> first | rfl | omega

theorem hungry_run_spec (j : Nat) :
    lockRun hungrySched (3 * j) = hS0 j ∧
    lockRun hungrySched (3 * j + 1) = hS1 j ∧
    lockRun hungrySched (3 * j + 2) = hS1 j := by
  induction j with
  | zero =>
    have p1 : lockRun hungrySched 0 = hS0 0 := lockInit_eq_hS0
    have p2 : lockRun hungrySched 1 = hS1 0 := by
      show lockStep (hungrySched 0) (lockRun hungrySched 0) = hS1 0
      have h0 : hungrySched 0 = .poll 1 := hungrySched_3j 0
      rw [h0, p1]
      exact hungry_step0 0
    have p3 : lockRun hungrySched 2 = hS1 0 := by
      show lockStep (hungrySched 1) (lockRun hungrySched 1) = hS1 0
      have h1 : hungrySched 1 = .poll 0 := hungrySched_3j1 0
      rw [h1, p2]
      exact hungry_step1 0
    exact ⟨p1, p2, p3⟩
  | succ j ih =>
    have e1 : 3 * (j + 1) = (3 * j + 2) + 1 := by omega
    have p1 : lockRun hungrySched (3 * (j + 1)) = hS0 (j + 1) := by
      rw [e1]
      show lockStep (hungrySched (3 * j + 2)) (lockRun hungrySched (3 * j + 2)) = hS0 (j + 1)
      rw [hungrySched_3j2, ih.2.2]
      exact hungry_step2 j
    have p2 : lockRun hungrySched (3 * (j + 1) + 1) = hS1 (j + 1) := by
      show lockStep (hungrySched (3 * (j + 1))) (lockRun hungrySched (3 * (j + 1)))
        = hS1 (j + 1)
      rw [hungrySched_3j, p1]
      exact hungry_step0 (j + 1)
    have p3 : lockRun hungrySched (3 * (j + 1) + 2) = hS1 (j + 1) := by
      show lockStep (hungrySched (3 * (j + 1) + 1)) (lockRun hungrySched (3 * (j + 1) + 1))
        = hS1 (j + 1)
      rw [hungrySched_3j1, p2]
      exact hungry_step1 (j + 1)
    exact ⟨p1, p2, p3⟩

theorem hungry_phase0 (n : Nat) : (lockRun hungrySched n).phase 0 = .waiting := by
  obtain ⟨hs0, hs1, hs2⟩ := hungry_run_spec (n / 3)
  have h3 : n % 3 = 0 ∨ n % 3 = 1 ∨ n % 3 = 2 := by omega
  rcases h3 with h | h | h
  · have e : n = 3 * (n / 3) := by omega
    rw [e, hs0]
    simp [hS0]
  · have e : n = 3 * (n / 3) + 1 := by omega
    rw [e, hs1]
    simp [hS1]
  · have e : n = 3 * (n / 3) + 2 := by omega
    rw [e, hs2]
    simp [hS1]

theorem lock_not_starvationFree : ¬ StarvationFree := by
  intro h
  obtain ⟨n, hn⟩ := h hungrySched 0 (fun n => ⟨3 * n + 1, by omega, hungrySched_3j1 n⟩)
  rw [hungry_phase0 n] at hn
  exact absurd hn (by decide)

theorem truthy_of_unset (o : Option JVal) (h : Unset o) : truthy o = false := by
  rcases h with rfl | rfl <;> rfl

/-! ### The claims -/

/-- Claim C1, as stated, is false: it conjoins global mutual exclusion with
starvation-freedom, and the fixed-interval polling wait is not
starvation-free — under the concrete schedule `hungrySched`, caller 0's
poll is scheduled again and again forever, yet every poll finds the lock
held by another caller and caller 0 never enters its load/mutate/save
cycle. -/
theorem c1_counterexample :
    ¬ ((∀ (sched : Nat → LockAction) (n t u : Nat),
          (lockRun sched n).phase t = Phase.critical →
          (lockRun sched n).phase u = Phase.critical → t = u) ∧
       StarvationFree) :=
  fun h => lock_not_starvationFree h.2

/-- Claim C1 (amended): global mutual exclusion holds — in every reachable
state of the lock automaton at most one `withDb` caller is inside its
load/mutate/save cycle, because the re-check of `lock.locked` and the
acquisition are one atomic step — but starvation-freedom does not:
a waiting caller whose poll is scheduled infinitely often may never
acquire the slot. -/
theorem c1_mutex_without_starvation_freedom :
    (∀ (sched : Nat → LockAction) (n t u : Nat),
      (lockRun sched n).phase t = Phase.critical →
      (lockRun sched n).phase u = Phase.critical → t = u) ∧
    ¬ StarvationFree :=
  ⟨fun sched n t u ht hu => (lockInv_run sched n).2 t u ht hu,
   lock_not_starvationFree⟩

/-- Claim C2: along any run of mutating requests, the audit trail is
ordered newest-first by `changed_at`; one further successful mutation
prepends exactly one entry, keeping every pre-existing entry intact
(the old list is literally the tail), and a failed mutation adds none. -/
theorem c2_audit_prepend_newest_first (ops : List Op) (op : Op) :
    List.Sorted (fun a b => b ≤ a) (auditTimes (runOps ops 1 initSt).db) ∧
    ((stepOp (1 + ops.length) op (runOps ops 1 initSt)).resp.isSuccess = true →
      ∃ e, (stepOp (1 + ops.length) op (runOps ops 1 initSt)).st.db.inventory_audit
        = e :: (runOps ops 1 initSt).db.inventory_audit) ∧
    ((stepOp (1 + ops.length) op (runOps ops 1 initSt)).resp.isSuccess = false →
      (stepOp (1 + ops.length) op (runOps ops 1 initSt)).st.db.inventory_audit
        = (runOps ops 1 initSt).db.inventory_audit) := by
  have hA := auditOK_run ops 1 initSt
    (by intro e he; simp [initSt, emptyDb] at he)
    (by simp [auditTimes, initSt, emptyDb])
  refine ⟨hA.2, ?_, ?_⟩
  · intro hsucc
    rcases stepOp_shape (1 + ops.length) op (runOps ops 1 initSt) with
      ⟨hf, _⟩ | ⟨_, e, he, _⟩
    · rw [hsucc] at hf
      cases hf
    · exact ⟨e, he⟩
  · intro hfail
    rcases stepOp_shape (1 + ops.length) op (runOps ops 1 initSt) with
      ⟨_, hst⟩ | ⟨hsucc, _⟩
    · rw [hst]
    · rw [hfail] at hsucc
      cases hsucc

/-- Claim C3, as stated, is false: the create handler builds the record
with `Object.assign(defaults, req.body)`, the body last, so a body that
carries one of the generated keys overrides it — here a `deleted_at`
string makes the stored and returned item non-ACTIVE, refuting
"deleted_at = null regardless of what extra keys the fields argument
contains". -/
theorem c3_counterexample :
    (stepOp 1 (.create [("sku", JVal.str "A1"), ("product_name", JVal.str "Widget"),
        ("deleted_at", JVal.str "2020-01-01")] "admin") initSt).resp
      = .created (createRecord [("sku", JVal.str "A1"), ("product_name", JVal.str "Widget"),
        ("deleted_at", JVal.str "2020-01-01")] "admin" 0 1) ∧
    (stepOp 1 (.create [("sku", JVal.str "A1"), ("product_name", JVal.str "Widget"),
        ("deleted_at", JVal.str "2020-01-01")] "admin") initSt).st.db.inventory_items
      = [createRecord [("sku", JVal.str "A1"), ("product_name", JVal.str "Widget"),
        ("deleted_at", JVal.str "2020-01-01")] "admin" 0 1] ∧
    objGet (createRecord [("sku", JVal.str "A1"), ("product_name", JVal.str "Widget"),
        ("deleted_at", JVal.str "2020-01-01")] "admin" 0 1) "deleted_at"
      = some (JVal.str "2020-01-01") ∧
    some (JVal.str "2020-01-01") ≠ some JVal.null :=
  ⟨by decide, by decide, by decide, by decide⟩

/-- Claim C3 (amended): for every successful create whose `fields` carry
none of the six generated keys (`item_id`, `created_at`, `updated_at`,
`deleted_at`, `created_by`, `updated_by`), the stored and returned item
has a freshly allocated `item_id`, both timestamps set to the current
instant, both actor fields set to the actor, and `deleted_at = null`;
and when every earlier create body also leaves those keys alone, all
stored `item_id`s are pairwise distinct. -/
theorem c3_create_generated_fields (ops : List Op) (body : JsObj) (actor : String)
    (r : JsObj) (hops : ∀ op ∈ ops, GoodOp op) (hbody : goodCreateBody body = true)
    (hres : (stepOp (1 + ops.length) (.create body actor) (runOps ops 1 initSt)).resp
      = .created r) :
    objGet r "item_id" = some (uuid (runOps ops 1 initSt).nextId) ∧
    objGet r "created_at" = some (.str (tsStr (1 + ops.length))) ∧
    objGet r "updated_at" = some (.str (tsStr (1 + ops.length))) ∧
    objGet r "deleted_at" = some JVal.null ∧
    objGet r "created_by" = some (.str actor) ∧
    objGet r "updated_by" = some (.str actor) ∧
    (stepOp (1 + ops.length) (.create body actor)
        (runOps ops 1 initSt)).st.db.inventory_items
      = (runOps ops 1 initSt).db.inventory_items ++ [r] ∧
    (∀ j1 j2,
      j1 < (stepOp (1 + ops.length) (.create body actor)
        (runOps ops 1 initSt)).st.db.inventory_items.length →
      j2 < (stepOp (1 + ops.length) (.create body actor)
        (runOps ops 1 initSt)).st.db.inventory_items.length →
      objGet ((stepOp (1 + ops.length) (.create body actor)
        (runOps ops 1 initSt)).st.db.inventory_items.getD j1 []) "item_id"
        = objGet ((stepOp (1 + ops.length) (.create body actor)
          (runOps ops 1 initSt)).st.db.inventory_items.getD j2 []) "item_id" →
      j1 = j2) := by
  have hinv := itemIds_run ops 1 initSt hops
    (by intro j hj; simp [initSt, emptyDb] at hj)
    (by intro j1 j2 hj1 hj2; simp [initSt, emptyDb] at hj1)
  have hdistinct := (itemIds_step (1 + ops.length) (.create body actor)
    (runOps ops 1 initSt) hbody hinv.1 hinv.2).2
  cases hv : (!truthy (objGet body "sku") || !truthy (objGet body "product_name")) with
  | true =>
    rw [stepOp_create_invalid (1 + ops.length) body actor (runOps ops 1 initSt) hv] at hres
    cases hres
  | false =>
    rw [stepOp_create_valid (1 + ops.length) body actor (runOps ops 1 initSt) hv] at hres ⊢
    cases hd : (runOps ops 1 initSt).db.inventory_items.any
        (fun x => decide (objGet x "sku" = objGet body "sku")
          && !truthy (objGet x "deleted_at")) with
    | true =>
      rw [createTx_of_dup body actor (1 + ops.length) (runOps ops 1 initSt) hd] at hres
      cases hres
    | false =>
      rw [createTx_of_fresh body actor (1 + ops.length) (runOps ops 1 initSt) hd] at hres ⊢
      have hr : r = createRecord body actor (runOps ops 1 initSt).nextId (1 + ops.length) :=
        (Resp.created.injEq .. |>.mp hres).symm
      obtain ⟨f1, f2, f3, f4, f5, f6⟩ :=
        createRecord_defaults body actor (runOps ops 1 initSt).nextId (1 + ops.length) hbody
      subst hr
      refine ⟨f1, f2, f3, f4, f5, f6, rfl, ?_⟩
      intro j1 j2 hj1 hj2 he
      refine hdistinct j1 j2 ?_ ?_ ?_
      · rw [stepOp_create_valid (1 + ops.length) body actor (runOps ops 1 initSt) hv,
          createTx_of_fresh body actor (1 + ops.length) (runOps ops 1 initSt) hd]
        exact hj1
      · rw [stepOp_create_valid (1 + ops.length) body actor (runOps ops 1 initSt) hv,
          createTx_of_fresh body actor (1 + ops.length) (runOps ops 1 initSt) hd]
        exact hj2
      · rw [stepOp_create_valid (1 + ops.length) body actor (runOps ops 1 initSt) hv,
          createTx_of_fresh body actor (1 + ops.length) (runOps ops 1 initSt) hd]
        exact he

/-- Witness for claim C3 (amended) at a clean two-field create body. -/
theorem c3_create_generated_fields_witness :
    goodCreateBody [("sku", JVal.str "A1"), ("product_name", JVal.str "Widget")] = true ∧
    (stepOp 1 (.create [("sku", JVal.str "A1"), ("product_name", JVal.str "Widget")]
      "admin") initSt).resp
      = .created (createRecord [("sku", JVal.str "A1"), ("product_name", JVal.str "Widget")]
        "admin" 0 1) ∧
    objGet (createRecord [("sku", JVal.str "A1"), ("product_name", JVal.str "Widget")]
      "admin" 0 1) "deleted_at" = some JVal.null := by
  refine ⟨by decide, by decide, ?_⟩
  exact (c3_create_generated_fields []
    [("sku", JVal.str "A1"), ("product_name", JVal.str "Widget")] "admin"
    (createRecord [("sku", JVal.str "A1"), ("product_name", JVal.str "Widget")] "admin" 0 1)
    (by intro op h; cases h) (by decide) (by decide)).2.2.2.1

/-- Claim C4: every successful mutation records exactly one audit entry
whose `full_record` is the item as stored immediately after the mutation
(for create and update it is the returned item, for delete it carries the
fresh `deleted_at`), and audit entries are values that later operations
never rewrite: the audit trail after any further run still carries the
earlier trail as an unchanged suffix. In the source the JSON round trip
between transactions severs the one aliased reference (`full_record:rec`
in CREATE), which is never mutated inside its own transaction. -/
theorem c4_full_record_snapshot_and_frame (now : Nat) (op : Op) (s : St)
    (more : List Op) (t2 : Nat) :
    ((stepOp now op s).resp.isSuccess = true →
      ∃ e, (stepOp now op s).st.db.inventory_audit = e :: s.db.inventory_audit ∧
        e.full_record ∈ (stepOp now op s).st.db.inventory_items) ∧
    (∀ r, (stepOp now op s).resp = .created r →
      ∃ e, (stepOp now op s).st.db.inventory_audit = e :: s.db.inventory_audit ∧
        e.full_record = r) ∧
    (∀ r, (stepOp now op s).resp = .updated r →
      ∃ e, (stepOp now op s).st.db.inventory_audit = e :: s.db.inventory_audit ∧
        e.full_record = r) ∧
    ((stepOp now op s).resp = .deletedOk →
      ∃ e, (stepOp now op s).st.db.inventory_audit = e :: s.db.inventory_audit ∧
        objGet e.full_record "deleted_at" = some (.str (tsStr now))) ∧
    List.IsSuffix (stepOp now op s).st.db.inventory_audit
      ((runOps more t2 (stepOp now op s).st).db.inventory_audit) := by
  refine ⟨?_, ?_, ?_, ?_, runOps_audit_suffix more t2 (stepOp now op s).st⟩
  · intro hsucc
    rcases stepOp_shape now op s with ⟨hf, _⟩ | ⟨_, e, he, _, hitems⟩
    · rw [hsucc] at hf
      cases hf
    · refine ⟨e, he, ?_⟩
      rcases hitems with ⟨r, hil, hfr⟩ | ⟨i, r, hi, hil, hfr⟩
      · rw [hfr, hil]
        simp
      · rw [hfr, hil]
        have hgb : (s.db.inventory_items.set i r)[i]? = some r :=
          List.getElem?_set_self hi
        exact List.getElem?_mem hgb
  · intro r hres
    cases op with
    | create body actor =>
      cases hv : (!truthy (objGet body "sku") || !truthy (objGet body "product_name")) with
      | true =>
        rw [stepOp_create_invalid now body actor s hv] at hres
        cases hres
      | false =>
        rw [stepOp_create_valid now body actor s hv] at hres ⊢
        cases hd : s.db.inventory_items.any
            (fun x => decide (objGet x "sku" = objGet body "sku")
              && !truthy (objGet x "deleted_at")) with
        | true =>
          rw [createTx_of_dup body actor now s hd] at hres
          cases hres
        | false =>
          rw [createTx_of_fresh body actor now s hd] at hres ⊢
          have hr : createRecord body actor s.nextId now = r :=
            Resp.created.injEq .. |>.mp hres
          exact ⟨_, rfl, hr⟩
    | update id body actor =>
      cases hU : allowedUpdates body with
      | nil =>
        rw [stepOp_update_empty now id body actor s hU] at hres
        cases hres
      | cons u us =>
        rw [stepOp_update_nonempty now id body actor s u us hU] at hres ⊢
        cases hf : findItemIdx s.db id with
        | none =>
          rw [updateTx_of_notFound id (allowedUpdates body) actor now s hf] at hres
          cases hres
        | some i =>
          rw [updateTx_of_found id (allowedUpdates body) actor now s i hf] at hres
          cases hres
    | del id actor =>
      rw [stepOp_del_eq now id actor s] at hres
      cases hf : findItemIdx s.db id with
      | none =>
        rw [deleteTx_of_notFound id actor now s hf] at hres
        cases hres
      | some i =>
        rw [deleteTx_of_found id actor now s i hf] at hres
        cases hres
  · intro r hres
    cases op with
    | create body actor =>
      cases hv : (!truthy (objGet body "sku") || !truthy (objGet body "product_name")) with
      | true =>
        rw [stepOp_create_invalid now body actor s hv] at hres
        cases hres
      | false =>
        rw [stepOp_create_valid now body actor s hv] at hres
        cases hd : s.db.inventory_items.any
            (fun x => decide (objGet x "sku" = objGet body "sku")
              && !truthy (objGet x "deleted_at")) with
        | true =>
          rw [createTx_of_dup body actor now s hd] at hres
          cases hres
        | false =>
          rw [createTx_of_fresh body actor now s hd] at hres
          cases hres
    | update id body actor =>
      cases hU : allowedUpdates body with
      | nil =>
        rw [stepOp_update_empty now id body actor s hU] at hres
        cases hres
      | cons u us =>
        rw [stepOp_update_nonempty now id body actor s u us hU] at hres ⊢
        cases hf : findItemIdx s.db id with
        | none =>
          rw [updateTx_of_notFound id (allowedUpdates body) actor now s hf] at hres
          cases hres
        | some i =>
          rw [updateTx_of_found id (allowedUpdates body) actor now s i hf] at hres ⊢
          have hr : applyUpdates (s.db.inventory_items.getD i []) (allowedUpdates body)
              actor now = r :=
            Resp.updated.injEq .. |>.mp hres
          exact ⟨_, rfl, hr⟩
    | del id actor =>
      rw [stepOp_del_eq now id actor s] at hres
      cases hf : findItemIdx s.db id with
      | none =>
        rw [deleteTx_of_notFound id actor now s hf] at hres
        cases hres
      | some i =>
        rw [deleteTx_of_found id actor now s i hf] at hres
        cases hres
  · intro hres
    cases op with
    | create body actor =>
      cases hv : (!truthy (objGet body "sku") || !truthy (objGet body "product_name")) with
      | true =>
        rw [stepOp_create_invalid now body actor s hv] at hres
        cases hres
      | false =>
        rw [stepOp_create_valid now body actor s hv] at hres
        cases hd : s.db.inventory_items.any
            (fun x => decide (objGet x "sku" = objGet body "sku")
              && !truthy (objGet x "deleted_at")) with
        | true =>
          rw [createTx_of_dup body actor now s hd] at hres
          cases hres
        | false =>
          rw [createTx_of_fresh body actor now s hd] at hres
          cases hres
    | update id body actor =>
      cases hU : allowedUpdates body with
      | nil =>
        rw [stepOp_update_empty now id body actor s hU] at hres
        cases hres
      | cons u us =>
        rw [stepOp_update_nonempty now id body actor s u us hU] at hres
        cases hf : findItemIdx s.db id with
        | none =>
          rw [updateTx_of_notFound id (allowedUpdates body) actor now s hf] at hres
          cases hres
        | some i =>
          rw [updateTx_of_found id (allowedUpdates body) actor now s i hf] at hres
          cases hres
    | del id actor =>
      rw [stepOp_del_eq now id actor s] at hres ⊢
      cases hf : findItemIdx s.db id with
      | none =>
        rw [deleteTx_of_notFound id actor now s hf] at hres
        cases hres
      | some i =>
        rw [deleteTx_of_found id actor now s i hf]
        exact ⟨_, rfl, objGet_deleteMutate_deleted_at _ actor now⟩

/-- Claim C5, as stated, is false: after creating an item with only `sku`
and `product_name`, updating it with `{quantity: 5}` records a diff whose
`before` is an `undefined` read of a missing key (`before[k]` with no
`quantity` on the snapshot), not `null`; `JSON.stringify` drops such a
key, so the persisted and served diff is `{quantity: {after: 5}}`, not
`{quantity: {before: null, after: 5}}`. -/
theorem c5_counterexample :
    ((stepOp 2 (.update (uuid 0) [("quantity", JVal.num 5)] "admin")
      (stepOp 1 (.create [("sku", JVal.str "A1"), ("product_name", JVal.str "Widget")]
        "admin") initSt).st).st.db.inventory_audit.head?.map (fun e => e.diff))
      = some (some [("quantity", { before := none, after := some (JVal.num 5) })]) ∧
    some (some [("quantity",
        ({ before := none, after := some (JVal.num 5) } : FieldDiff))])
      ≠ some (some [("quantity",
        ({ before := some JVal.null, after := some (JVal.num 5) } : FieldDiff))]) :=
  ⟨by decide, by decide⟩

/-- Claim C5 (amended): a successful update records a diff containing
exactly the allow-listed fields present in the patch, in allow-list order,
each mapped to `before` = the raw read of that field from the pre-update
snapshot (`undefined` — the key is absent after serialization — when the
field was not set before, `null` or its value otherwise) and `after` = the
stored new value (numeric coercion applied for `quantity` / `price`). -/
theorem c5_update_diff (id : JVal) (body : JsObj) (actor : String) (now : Nat)
    (s : St) (i : Nat) (hf : findItemIdx s.db id = some i)
    (hne : allowedUpdates body ≠ []) :
    ∃ e, (stepOp now (.update id body actor) s).st.db.inventory_audit.head? = some e ∧
      e.operation = "UPDATE" ∧
      e.diff = some ((allowedUpdates body).map (fun p =>
        (p.1, { before := objGet (s.db.inventory_items.getD i []) p.1,
                after := some (coerceField p.1 p.2) }))) := by
  cases hU : allowedUpdates body with
  | nil => exact absurd hU hne
  | cons u us =>
    rw [stepOp_update_nonempty now id body actor s u us hU,
      updateTx_of_found id (allowedUpdates body) actor now s i hf]
    dsimp only
    refine ⟨_, rfl, rfl, ?_⟩
    rw [Option.some.injEq, hU]
    refine List.map_eq_map_iff.mpr ?_
    intro p hp
    have hp2 : p ∈ allowedUpdates body := by
      rw [hU]
      exact hp
    have hnd := allowedUpdates_keys_nodup body
    rw [hU] at hnd
    have hAF : p.1 ∈ allowedFields := (mem_allowedUpdates body p.1 p.2 hp2).1
    have h1 : p.1 ≠ "updated_at" := by
      intro he
      rw [he] at hAF
      exact absurd hAF (by decide)
    have h2 : p.1 ≠ "updated_by" := by
      intro he
      rw [he] at hAF
      exact absurd hAF (by decide)
    rw [objGet_applyUpdates_mem _ _ _ _ _ _ hnd hp h1 h2]

/-- Witness for claim C5 (amended): the spec's own example run. -/
theorem c5_update_diff_witness :
    findItemIdx (stepOp 1 (.create [("sku", JVal.str "A1"),
        ("product_name", JVal.str "Widget")] "admin") initSt).st.db (uuid 0) = some 0 ∧
    allowedUpdates [("quantity", JVal.num 5)] ≠ [] ∧
    ∃ e, (stepOp 2 (.update (uuid 0) [("quantity", JVal.num 5)] "admin")
      (stepOp 1 (.create [("sku", JVal.str "A1"), ("product_name", JVal.str "Widget")]
        "admin") initSt).st).st.db.inventory_audit.head? = some e ∧
      e.operation = "UPDATE" ∧
      e.diff = some ((allowedUpdates [("quantity", JVal.num 5)]).map (fun p =>
        (p.1, { before := objGet ((stepOp 1 (.create [("sku", JVal.str "A1"),
            ("product_name", JVal.str "Widget")] "admin")
            initSt).st.db.inventory_items.getD 0 []) p.1,
                after := some (coerceField p.1 p.2) }))) := by
  refine ⟨by decide, by decide, ?_⟩
  exact c5_update_diff (uuid 0) [("quantity", JVal.num 5)] "admin" 2
    (stepOp 1 (.create [("sku", JVal.str "A1"), ("product_name", JVal.str "Widget")]
      "admin") initSt).st 0 (by decide) (by decide)

/-- Claim C6: `createTx` answers `DuplicateSku` exactly when some stored
item carries the same `sku` value and an unset (`undefined`/`null`)
`deleted_at` — stated over documents whose `deleted_at` fields are either
unset or truthy, which covers every value the service itself writes; in
particular, once every item with the requested `sku` is soft-deleted
(`deleted_at` truthy, as `deleteTx` leaves it), create succeeds. -/
theorem c6_duplicate_sku_iff_active (body : JsObj) (actor : String) (now : Nat) (s : St)
    (hwf : WFDeleted s.db) :
    ((createTx body actor now s).1 = .duplicateSku ↔
      ∃ x ∈ s.db.inventory_items,
        objGet x "sku" = objGet body "sku" ∧ Unset (objGet x "deleted_at")) ∧
    ((∀ x ∈ s.db.inventory_items,
        objGet x "sku" = objGet body "sku" → truthy (objGet x "deleted_at") = true) →
      ∃ r, (createTx body actor now s).1 = .created r) ∧
    (∀ id i actor2 now2, findItemIdx s.db id = some i →
      truthy (objGet ((deleteTx id actor2 now2 s).2.db.inventory_items.getD i [])
        "deleted_at") = true) := by
  refine ⟨?_, ?_, ?_⟩
  · cases hd : s.db.inventory_items.any
        (fun x => decide (objGet x "sku" = objGet body "sku")
          && !truthy (objGet x "deleted_at")) with
    | true =>
      rw [createTx_of_dup body actor now s hd]
      refine iff_of_true rfl ?_
      obtain ⟨x, hx, hpx⟩ := List.any_eq_true.mp hd
      rw [Bool.and_eq_true, decide_eq_true_eq, Bool.not_eq_true'] at hpx
      refine ⟨x, hx, hpx.1, ?_⟩
      rcases hwf x hx with hu | ht
      · exact hu
      · rw [hpx.2] at ht
        cases ht
    | false =>
      rw [createTx_of_fresh body actor now s hd]
      refine iff_of_false (by simp) ?_
      rintro ⟨x, hx, hsku, hunset⟩
      have hall := List.any_eq_false.mp hd x hx
      apply hall
      rw [Bool.and_eq_true, decide_eq_true_eq, Bool.not_eq_true']
      exact ⟨hsku, truthy_of_unset _ hunset⟩
  · intro hactive
    have hd : s.db.inventory_items.any
        (fun x => decide (objGet x "sku" = objGet body "sku")
          && !truthy (objGet x "deleted_at")) = false := by
      rw [List.any_eq_false]
      intro x hx
      by_cases hsku : objGet x "sku" = objGet body "sku"
      · simp [hsku, hactive x hx hsku]
      · simp [hsku]
    rw [createTx_of_fresh body actor now s hd]
    exact ⟨_, rfl⟩
  · intro id i actor2 now2 hf
    rw [deleteTx_of_found id actor2 now2 s i hf]
    dsimp only
    rw [getD_set_self _ _ _ (idxOfItem_lt id s.db.inventory_items i hf),
      objGet_deleteMutate_deleted_at]
    exact truthy_tsStr now2

/-- Witness for claim C6: one soft-deleted item with the requested SKU;
creating that SKU again succeeds. -/
theorem c6_duplicate_sku_iff_active_witness :
    WFDeleted (⟨[], [[("item_id", uuid 0), ("sku", JVal.str "A1"),
      ("deleted_at", JVal.str "T")]], [], []⟩ : Db) ∧
    ∃ r, (createTx [("sku", JVal.str "A1"), ("product_name", JVal.str "W")] "admin" 7
      (⟨⟨[], [[("item_id", uuid 0), ("sku", JVal.str "A1"),
        ("deleted_at", JVal.str "T")]], [], []⟩, 1⟩ : St)).1 = .created r := by
  have hwf : WFDeleted (⟨[], [[("item_id", uuid 0), ("sku", JVal.str "A1"),
      ("deleted_at", JVal.str "T")]], [], []⟩ : Db) := by
    intro x hx
    rw [List.mem_singleton] at hx
    subst hx
    right
    decide
  refine ⟨hwf, ?_⟩
  refine (c6_duplicate_sku_iff_active
    [("sku", JVal.str "A1"), ("product_name", JVal.str "W")] "admin" 7
    (⟨⟨[], [[("item_id", uuid 0), ("sku", JVal.str "A1"),
      ("deleted_at", JVal.str "T")]], [], []⟩, 1⟩ : St) hwf).2.1 ?_
  intro x hx
  rw [List.mem_singleton] at hx
  subst hx
  intro _
  decide

/-- Claim C7: a truthy `deleted_at` survives every later request — no
operation ever writes `null` (or removes the key) there again, since the
PATCH allow-list excludes `deleted_at` and DELETE only overwrites it with
a fresh timestamp; and DELETE on an already-deleted item still succeeds
and overwrites `deleted_at` with the current instant. -/
theorem c7_soft_delete_terminal (s : St) (j : Nat) (more : List Op) (t : Nat)
    (h : truthy (objGet (s.db.inventory_items.getD j []) "deleted_at") = true) :
    truthy (objGet ((runOps more t s).db.inventory_items.getD j []) "deleted_at") = true ∧
    objGet ((runOps more t s).db.inventory_items.getD j []) "deleted_at" ≠ some JVal.null ∧
    objGet ((runOps more t s).db.inventory_items.getD j []) "deleted_at" ≠ none ∧
    (∀ id i actor now, findItemIdx s.db id = some i →
      (deleteTx id actor now s).1 = .deletedOk ∧
      objGet ((deleteTx id actor now s).2.db.inventory_items.getD i []) "deleted_at"
        = some (.str (tsStr now))) := by
  have p1 := run_deleted_stable more t s j h
  refine ⟨p1, (truthy_ne_null p1).1, (truthy_ne_null p1).2, ?_⟩
  intro id i actor now hf
  rw [deleteTx_of_found id actor now s i hf]
  refine ⟨rfl, ?_⟩
  dsimp only
  rw [getD_set_self _ _ _ (idxOfItem_lt id s.db.inventory_items i hf),
    objGet_deleteMutate_deleted_at]

/-- Witness for claim C7 at a concrete deleted item. -/
theorem c7_soft_delete_terminal_witness :
    truthy (objGet ((⟨⟨[], [[("item_id", uuid 0), ("sku", JVal.str "A1"),
        ("deleted_at", JVal.str "T")]], [], []⟩, 1⟩ : St).db.inventory_items.getD 0 [])
      "deleted_at") = true ∧
    truthy (objGet ((runOps [.del (uuid 0) "admin"] 5
        (⟨⟨[], [[("item_id", uuid 0), ("sku", JVal.str "A1"),
          ("deleted_at", JVal.str "T")]], [], []⟩, 1⟩ : St)).db.inventory_items.getD 0 [])
      "deleted_at") = true := by
  have h : truthy (objGet ((⟨⟨[], [[("item_id", uuid 0), ("sku", JVal.str "A1"),
      ("deleted_at", JVal.str "T")]], [], []⟩, 1⟩ : St).db.inventory_items.getD 0 [])
      "deleted_at") = true := by decide
  exact ⟨h, (c7_soft_delete_terminal _ 0 [.del (uuid 0) "admin"] 5 h).1⟩

/-- Claim C8: a PATCH whose body contains no allow-listed field is rejected
with `NoUpdates` before `withDb` runs — no write happens (`wrote = false`),
and the state (items, audit trail, id counter) is exactly unchanged. -/
theorem c8_no_updates_short_circuit (now : Nat) (id : JVal) (body : JsObj)
    (actor : String) (s : St) (h : allowedUpdates body = []) :
    (stepOp now (.update id body actor) s).resp = .noUpdates ∧
    (stepOp now (.update id body actor) s).wrote = false ∧
    (stepOp now (.update id body actor) s).st = s := by
  rw [stepOp_update_empty now id body actor s h]
  exact ⟨rfl, rfl, rfl⟩

/-- Witness for claim C8: a body with no allow-listed key. -/
theorem c8_no_updates_short_circuit_witness :
    allowedUpdates [("item_id", JVal.str "x"), ("foo", JVal.num 1)] = [] ∧
    (stepOp 3 (.update (uuid 0) [("item_id", JVal.str "x"), ("foo", JVal.num 1)] "admin")
      initSt).resp = .noUpdates := by
  exact ⟨by decide,
    (c8_no_updates_short_circuit 3 (uuid 0) [("item_id", JVal.str "x"), ("foo", JVal.num 1)]
      "admin" initSt (by decide)).1⟩

/-- Claim C9: with no persisted file, `loadDb` returns a fresh document
whose four collections are empty and leaves the filesystem alone; with an
unparsable file it does not raise (it is a total function), renames the
file aside under a timestamped name, and returns the same fresh empty
document. -/
theorem c9_load_recovery :
    (∀ q t, loadDb t ⟨none, q⟩ = (emptyDb, ⟨none, q⟩)) ∧
    emptyDb.users = [] ∧ emptyDb.inventory_items = [] ∧
    emptyDb.inventory_audit = [] ∧ emptyDb.app_meta = [] ∧
    (∀ raw q t, loadDb t ⟨some (.corrupt raw), q⟩
      = (emptyDb,
         ⟨none, q ++ [("data.json.corrupt." ++ toString t, .corrupt raw)]⟩)) :=
  ⟨fun _ _ => rfl, rfl, rfl, rfl, rfl, fun _ _ _ => rfl⟩

/-- Claim C10: each transaction returns its domain error (`DuplicateSku`
on create, `NotFound` on update/delete) before mutating the loaded
document, so the state it hands back is the one it received; hence, even
though `withDb` saves the document after the callback returns, the data
file still holds the same document after a failed operation. -/
theorem c10_failed_ops_leave_document_unchanged (body : JsObj)
    (us : List (String × JVal)) (id : JVal) (actor : String) (now nid : Nat) (s : St)
    (db : Db) (q : List (String × FileContent)) :
    ((createTx body actor now s).1 = .duplicateSku → (createTx body actor now s).2 = s) ∧
    ((updateTx id us actor now s).1 = .notFound → (updateTx id us actor now s).2 = s) ∧
    ((deleteTx id actor now s).1 = .notFound → (deleteTx id actor now s).2 = s) ∧
    ((createTx body actor now ⟨db, nid⟩).1 = .duplicateSku →
      (withDb (createTx body actor now) now nid ⟨some (.parsable db), q⟩).2.1.dbFile
        = some (.parsable db)) ∧
    ((updateTx id us actor now ⟨db, nid⟩).1 = .notFound →
      (withDb (updateTx id us actor now) now nid ⟨some (.parsable db), q⟩).2.1.dbFile
        = some (.parsable db)) ∧
    ((deleteTx id actor now ⟨db, nid⟩).1 = .notFound →
      (withDb (deleteTx id actor now) now nid ⟨some (.parsable db), q⟩).2.1.dbFile
        = some (.parsable db)) := by
  have hC : ∀ s2 : St, (createTx body actor now s2).1 = .duplicateSku →
      (createTx body actor now s2).2 = s2 := by
    intro s2 h
    cases hd : s2.db.inventory_items.any
        (fun x => decide (objGet x "sku" = objGet body "sku")
          && !truthy (objGet x "deleted_at")) with
    | true => rw [createTx_of_dup body actor now s2 hd]
    | false =>
      rw [createTx_of_fresh body actor now s2 hd] at h
      cases h
  have hU : ∀ s2 : St, (updateTx id us actor now s2).1 = .notFound →
      (updateTx id us actor now s2).2 = s2 := by
    intro s2 h
    cases hf : findItemIdx s2.db id with
    | none => rw [updateTx_of_notFound id us actor now s2 hf]
    | some i =>
      rw [updateTx_of_found id us actor now s2 i hf] at h
      cases h
  have hD : ∀ s2 : St, (deleteTx id actor now s2).1 = .notFound →
      (deleteTx id actor now s2).2 = s2 := by
    intro s2 h
    cases hf : findItemIdx s2.db id with
    | none => rw [deleteTx_of_notFound id actor now s2 hf]
    | some i =>
      rw [deleteTx_of_found id actor now s2 i hf] at h
      cases h
  refine ⟨hC s, hU s, hD s, ?_, ?_, ?_⟩
  · intro h
    show (saveDb (createTx body actor now ⟨db, nid⟩).2.db _).dbFile = some (.parsable db)
    rw [hC ⟨db, nid⟩ h]
    rfl
  · intro h
    show (saveDb (updateTx id us actor now ⟨db, nid⟩).2.db _).dbFile = some (.parsable db)
    rw [hU ⟨db, nid⟩ h]
    rfl
  · intro h
    show (saveDb (deleteTx id actor now ⟨db, nid⟩).2.db _).dbFile = some (.parsable db)
    rw [hD ⟨db, nid⟩ h]
    rfl


